import Mathlib

/-!
The exporter `shelly_exporter`: component discovery, device registry and the
per-tick pipeline.

A shallow embedding of `client/api_client.go` (`DiscoverComponents`) and
`rpc/main.go` (`DeviceManager`, `fetchAndUpdateMetrics`), followed by the
properties established about them.

Conventions of the embedding

* A Go `[]int` is a `List Int`; the nil slice is `[]`.  The functions below only
  ever build slices with `append`, so a slice is nil exactly when it is empty.
* The Go `int` is the 64-bit two's complement integer (`intSize = 64`).
* A Go `map[string]T` is an association list with pairwise distinct keys; the
  order of the list stands for the (unspecified) iteration order of the map.
* Effects (mutex operations, fetches, cancellations, started goroutines, log
  lines) are recorded as a list of events, oldest first.
* A `time.Duration` is an `Int` holding an `int64` value; a product is wrapped
  to 64 bits where the source multiplies.
* Results of collaborators that live outside these files (the HTTP round trip,
  the per-endpoint metric updaters) are inputs of the embedded functions.
-/

namespace Shelly

/-! ## Errors -/

/-- A Go `error` value: either an opaque error with its message, or an error
built by `fmt.Errorf("<msg>: %w", cause)`. -/
inductive GoError where
  | leaf (msg : String)
  | wrap (msg : String) (cause : GoError)
  deriving DecidableEq, Repr

/-- The error reached by one `errors.Unwrap`. -/
def GoError.unwrap : GoError → Option GoError
  | .leaf _ => none
  | .wrap _ cause => some cause

/-- The two error kinds of `strconv`. -/
inductive NumError where
  | ErrSyntax
  | ErrRange
  deriving DecidableEq, Repr

/-! ## `strconv.Atoi` and the key pattern -/

/-- Width of the Go `int` in bits (`strconv.IntSize`). -/
def intSize : Nat := 64

/-- Largest value of the Go `int`. -/
def maxInt : Int := 2 ^ (intSize - 1) - 1

/-- Smallest value of the Go `int`. -/
def minInt : Int := -(2 ^ (intSize - 1))

/-- The class `\d+`: a non-empty run of ASCII decimal digits. -/
def isDigits (s : List Char) : Bool :=
  !s.isEmpty && s.all Char.isDigit

/-- The natural number written by a run of decimal digits. -/
def decimalValue (s : List Char) : Nat :=
  s.foldl (fun n c => 10 * n + (c.toNat - 48)) 0

/-- Go `strconv.Atoi`: an optional sign followed by decimal digits.  A value
outside the `int` range yields the nearest bound together with `ErrRange`;
anything else that is not a number yields `0` with `ErrSyntax`. -/
def Atoi (s : List Char) : Int × Option NumError :=
  let signed : Bool × List Char :=
    match s with
    | '-' :: t => (true, t)
    | '+' :: t => (false, t)
    | _ => (false, s)
  if isDigits signed.2 then
    let n : Int := (decimalValue signed.2 : Nat)
    if signed.1 then
      if -n < minInt then (minInt, some .ErrRange) else (-n, none)
    else
      if maxInt < n then (maxInt, some .ErrRange) else (n, none)
  else
    (0, some .ErrSyntax)

/-- Remove the literal `lit` from the front of `s`, if `s` starts with it. -/
def cutLiteral : List Char → List Char → Option (List Char)
  | [], s => some s
  | _ :: _, [] => none
  | p :: ps, c :: cs => if p = c then cutLiteral ps cs else none

/-- One alternative of the pattern: `^kind:(\d+)$`.  Returns the two capture
groups. -/
def matchAlt (kind : String) (key : List Char) : Option (String × List Char) :=
  match cutLiteral (kind.data ++ [':']) key with
  | some rest => if isDigits rest then some (kind, rest) else none
  | none => none

/-- The compiled pattern `^(switch|cover):(\d+)$` applied with
`FindStringSubmatch`: `none` when the key does not match, otherwise the
capture groups `m[1]` and `m[2]`. -/
def componentKeyRe (key : String) : Option (String × List Char) :=
  (matchAlt "switch" key.data).orElse (fun _ => matchAlt "cover" key.data)

/-- Go `sort.Ints`: the ascending rearrangement of the slice. -/
def sortInts (l : List Int) : List Int :=
  l.insertionSort (· ≤ ·)

/-! ## `DiscoverComponents` -/

/-- Body of the `for key := range raw` loop: the accumulators are the named
results `switchIDs` and `coverIDs`. -/
def discoverKey (acc : List Int × List Int) (key : String) : List Int × List Int :=
  match componentKeyRe key with
  | none => acc
  | some (kind, digits) =>
    let id := (Atoi digits).1
    if kind = "switch" then (acc.1 ++ [id], acc.2)
    else if kind = "cover" then (acc.1, acc.2 ++ [id])
    else acc

/-- The method `APIClient.DiscoverComponents`.  The argument is the outcome of
`c.FetchData("/rpc/Shelly.GetStatus", &raw)`: an error, or the keys of the
decoded object in the order the `range` loop visits them.  The result is
`(switchIDs, coverIDs, err)`. -/
def DiscoverComponents (fetch : Except GoError (List String)) :
    List Int × List Int × Option GoError :=
  match fetch with
  | .error e => ([], [], some (.wrap "failed to discover components" e))
  | .ok raw =>
    let acc := raw.foldl discoverKey ([], [])
    (sortInts acc.1, sortInts acc.2, none)

/-! ## `DeviceConfig` -/

/-- The record `rpc.DeviceConfig`.  The field `Type` of the source is
`DeviceType` here, `Type` being reserved. -/
structure DeviceConfig where
  Host : String
  Username : String
  Password : String
  DeviceType : String
  Mac : String
  Profile : String
  SwitchIDs : List Int
  CoverIDs : List Int
  deriving DecidableEq, Repr

/-! ## `fetchAndUpdateMetrics` -/

/-- The individual metric updates a tick can invoke, with their arguments. -/
inductive Step where
  | deviceInfo
  | status
  | config
  | switchStatus (id : Int) (mac : String)
  | switchConfig (id : Int) (mac : String)
  | coverStatus (id : Int) (mac : String)
  | wifi (mac : String)
  deriving DecidableEq, Repr

/-- The answers of the metric updaters: given the updates already invoked in
this tick and the update invoked now, the error it returns (`none` is nil). -/
abbrev Oracle := List Step → Step → Option GoError

/-- The `for _, switchID := range device.SwitchIDs` loop.  `hist` is the list
of updates invoked so far; the result is the error returned from inside the
loop, if any, and the updates invoked. -/
def switchLoop (o : Oracle) (mac : String) :
    List Int → List Step → Option GoError × List Step
  | [], hist => (none, hist)
  | switchID :: rest, hist =>
    match o hist (.switchStatus switchID mac) with
    | some err =>
      (some (.wrap ("failed to update switch " ++ toString switchID ++ " status metrics") err),
        hist ++ [.switchStatus switchID mac])
    | none =>
      let hist1 := hist ++ [.switchStatus switchID mac]
      match o hist1 (.switchConfig switchID mac) with
      | some err =>
        (some (.wrap ("failed to update switch " ++ toString switchID ++ " config metrics") err),
          hist1 ++ [.switchConfig switchID mac])
      | none => switchLoop o mac rest (hist1 ++ [.switchConfig switchID mac])

/-- The `for _, coverID := range device.CoverIDs` loop. -/
def coverLoop (o : Oracle) (mac : String) :
    List Int → List Step → Option GoError × List Step
  | [], hist => (none, hist)
  | coverID :: rest, hist =>
    match o hist (.coverStatus coverID mac) with
    | some err =>
      (some (.wrap ("failed to update cover " ++ toString coverID ++ " metrics") err),
        hist ++ [.coverStatus coverID mac])
    | none => coverLoop o mac rest (hist ++ [.coverStatus coverID mac])

/-- The function `fetchAndUpdateMetrics`: the returned error and the updates
invoked, in order. -/
def fetchAndUpdateMetrics (o : Oracle) (device : DeviceConfig) :
    Option GoError × List Step :=
  match o [] .deviceInfo with
  | some err => (some (.wrap "failed to update device information metrics" err), [.deviceInfo])
  | none =>
    match o [.deviceInfo] .status with
    | some err =>
      (some (.wrap "failed to update device information metrics" err), [.deviceInfo, .status])
    | none =>
      match o [.deviceInfo, .status] .config with
      | some err =>
        (some (.wrap "failed to update config metrics" err), [.deviceInfo, .status, .config])
      | none =>
        match switchLoop o device.Mac device.SwitchIDs [.deviceInfo, .status, .config] with
        | (some err, hist) => (some err, hist)
        | (none, hist) =>
          match coverLoop o device.Mac device.CoverIDs hist with
          | (some err, hist1) => (some err, hist1)
          | (none, hist1) =>
            match o hist1 (.wifi device.Mac) with
            | some err => (some (.wrap "failed to update wifi metrics" err), hist1 ++ [.wifi device.Mac])
            | none => (none, hist1 ++ [.wifi device.Mac])

/-! ### The pipeline as the specification words it -/

/-- The fixed order of updates for a device: device-info, aggregate status,
aggregate config, per switch ID status then config, per cover ID status,
WiFi. -/
def pipelinePlan (device : DeviceConfig) : List Step :=
  [.deviceInfo, .status, .config]
    ++ device.SwitchIDs.flatMap (fun id => [.switchStatus id device.Mac, .switchConfig id device.Mac])
    ++ device.CoverIDs.map (fun id => .coverStatus id device.Mac)
    ++ [.wifi device.Mac]

/-- The message each update's error is wrapped with. -/
def stepMessage : Step → String
  | .deviceInfo => "failed to update device information metrics"
  | .status => "failed to update device information metrics"
  | .config => "failed to update config metrics"
  | .switchStatus id _ => "failed to update switch " ++ toString id ++ " status metrics"
  | .switchConfig id _ => "failed to update switch " ++ toString id ++ " config metrics"
  | .coverStatus id _ => "failed to update cover " ++ toString id ++ " metrics"
  | .wifi _ => "failed to update wifi metrics"

/-- Run a list of updates in order, stopping at the first one that fails and
returning its error wrapped. -/
def runPlan (o : Oracle) : List Step → List Step → Option GoError × List Step
  | [], hist => (none, hist)
  | s :: rest, hist =>
    match o hist s with
    | some err => (some (.wrap (stepMessage s) err), hist ++ [s])
    | none => runPlan o rest (hist ++ [s])

/-! ## The goroutine started by `RegisterDevice` -/

/-- The `int64` value an integer wraps to. -/
def wrapInt64 (x : Int) : Int :=
  (x + 9223372036854775808) % 18446744073709551616 - 9223372036854775808

/-- The duration `updateInterval * time.Second` handed to `time.NewTicker`:
an `int64` product in nanoseconds. -/
def tickerPeriod (updateInterval : Int) : Int :=
  wrapInt64 (updateInterval * 1000000000)

/-- Which case of the `select` fires in one iteration of the loop: the context
is done, or the ticker delivers a tick, during which the metric updaters answer
as the oracle says. -/
inductive Wake where
  | done
  | tick (o : Oracle)

/-- What the goroutine does: a panic (which ends the process), a log line, the
deferred `ticker.Stop()`, or one call of `fetchAndUpdateMetrics` with its
returned error and the updates it invoked. -/
inductive TaskEvent where
  | panic (msg : String)
  | log (level : String) (msg : String)
  | tickerStop
  | update (err : Option GoError) (steps : List Step)
  deriving DecidableEq, Repr

/-- The log line written after a tick whose pipeline returned an error. -/
def tickErrorLog (err : Option GoError) : List TaskEvent :=
  match err with
  | some _ => [.log "ERROR" "Error fetching metrics"]
  | none => []

/-- The loop `for { select { ... } }` of the goroutine, run against the
sequence of cases that fire.  An exhausted sequence leaves the task waiting. -/
def metricsLoop (device : DeviceConfig) : List Wake → List TaskEvent
  | [] => []
  | .done :: _ => [.log "INFO" "Stopping metrics update loop", .tickerStop]
  | .tick o :: rest =>
    .update (fetchAndUpdateMetrics o device).1 (fetchAndUpdateMetrics o device).2
      :: (tickErrorLog (fetchAndUpdateMetrics o device).1 ++ metricsLoop device rest)

/-- The goroutine body: `time.NewTicker` panics on a non-positive duration,
otherwise the loop runs. -/
def metricsTask (updateInterval : Int) (device : DeviceConfig) (wakes : List Wake) :
    List TaskEvent :=
  if tickerPeriod updateInterval ≤ 0 then [.panic "non-positive interval for NewTicker"]
  else metricsLoop device wakes

/-! ## The registry -/

/-- Observable effects of the registry operations.  A cancellation handle is
identified by the number of the context it belongs to.  The event `spawn` is
the `go` statement, which launches the goroutine `metricsTask`. -/
inductive Event where
  | lock
  | unlock
  | log (level : String) (msg : String)
  | deviceInfoFetch (host : String)
  | statusFetch (host : String)
  | cancel (handle : Nat)
  | spawn (handle : Nat) (host : String) (updateInterval : Int)
  deriving DecidableEq, Repr

/-- Map read `m[k]` with the comma-ok form. -/
def mapLookup (m : List (String × Nat)) (k : String) : Option Nat :=
  match m with
  | [] => none
  | (k', v) :: rest => if k' = k then some v else mapLookup rest k

/-- Go `delete(m, k)`. -/
def mapDelete (m : List (String × Nat)) (k : String) : List (String × Nat) :=
  m.filter (fun p => decide (p.1 ≠ k))

/-- Map write `m[k] = v`. -/
def mapSet (m : List (String × Nat)) (k : String) (v : Nat) : List (String × Nat) :=
  (k, v) :: mapDelete m k

/-- The `DeviceManager`: the field `devices` of the source, and the number of
cancellable contexts created so far, which names the next handle. -/
structure DeviceManager where
  devices : List (String × Nat)
  ctxCount : Nat
  deriving DecidableEq, Repr

/-- The constructor `NewDeviceManager`. -/
def NewDeviceManager : DeviceManager :=
  { devices := [], ctxCount := 0 }

/-- What the collaborators answer during one `RegisterDevice` call: the result
of `UpdateShellyGetDeviceInfoMetrics`, the values the three getters return
afterwards, and the outcome of the status fetch inside `DiscoverComponents`. -/
structure RegisterEnv where
  deviceInfoErr : Option GoError
  deviceType : String
  deviceMac : String
  deviceProfile : String
  status : Except GoError (List String)

/-- Outcome of `RegisterDevice`: the manager, the `DeviceConfig` behind the
pointer argument, the effects of the call, and the goroutine the call launched
(if any), as the function from the cases its `select` takes to what it does. -/
structure RegisterResult where
  dm : DeviceManager
  device : DeviceConfig
  events : List Event
  goroutine : Option (List Wake → List TaskEvent)

/-- Outcome of the deregistration operations. -/
structure ManagerResult where
  dm : DeviceManager
  events : List Event

/-- The log line written when discovery returned an error. -/
def discoveryErrorLog (err : Option GoError) : List Event :=
  match err with
  | some _ => [.log "ERROR" "Failed to discover components"]
  | none => []

/-- The method `DeviceManager.RegisterDevice`.  The mutex is locked on entry and the
deferred unlock runs on return.  The goroutine closes over the interval and the
`DeviceConfig` pointer, whose fields were set just before. -/
def RegisterDevice (env : RegisterEnv) (dm : DeviceManager) (device : DeviceConfig)
    (updateInterval : Int) : RegisterResult :=
  if (mapLookup dm.devices device.Host).isSome then
    { dm := dm
      device := device
      events := [.lock, .log "WARN" "Device already registered", .unlock]
      goroutine := none }
  else
    let cancel := dm.ctxCount
    let discovered := DiscoverComponents env.status
    let device1 : DeviceConfig :=
      { device with
        DeviceType := env.deviceType
        Mac := env.deviceMac
        Profile := env.deviceProfile
        SwitchIDs := discovered.1
        CoverIDs := discovered.2.1 }
    { dm := { devices := mapSet dm.devices device.Host cancel, ctxCount := dm.ctxCount + 1 }
      device := device1
      events :=
        [.lock, .log "INFO" "Registering new device",
          .deviceInfoFetch device.Host, .statusFetch device.Host]
        ++ discoveryErrorLog discovered.2.2
        ++ [.spawn cancel device.Host updateInterval, .unlock]
      goroutine := some (metricsTask updateInterval device1) }

/-- The method `DeviceManager.DeregisterDevice`: the mutex is locked on entry and
the deferred unlock runs on return. -/
def DeregisterDevice (dm : DeviceManager) (host : String) : ManagerResult :=
  match mapLookup dm.devices host with
  | none =>
    { dm := dm, events := [.lock, .log "WARN" "Device not found", .unlock] }
  | some cancel =>
    { dm := { dm with devices := mapDelete dm.devices host }
      events := [.lock, .cancel cancel, .log "INFO" "Device deregistered", .unlock] }

/-- The loop `for host, cancel := range dm.devices` of `DeregisterAll`. -/
def cancelEach : List (String × Nat) → List Event
  | [] => []
  | (_, cancel) :: rest =>
    .log "INFO" "Deregistering device" :: .cancel cancel :: cancelEach rest

/-- The method `DeviceManager.DeregisterAll`. -/
def DeregisterAll (dm : DeviceManager) : ManagerResult :=
  { dm := { dm with devices := [] }
    events := [.lock] ++ cancelEach dm.devices
      ++ [.log "INFO" "All devices deregistered", .unlock] }

/-- Effect of one event on the mutex: whether it is held afterwards. -/
def lockStep (held : Bool) : Event → Bool
  | .lock => true
  | .unlock => false
  | _ => held

/-- Whether the mutex is held after the given events, starting unlocked. -/
def mutexHeld (evs : List Event) : Bool :=
  evs.foldl lockStep false

/-- An event that is a network fetch of the registration phase. -/
def Event.isFetch : Event → Bool
  | .deviceInfoFetch _ => true
  | .statusFetch _ => true
  | _ => false

/-- An event that invokes a cancellation handle. -/
def Event.isCancel : Event → Bool
  | .cancel _ => true
  | _ => false

/-- The mutex state at each fetch of a call: for every fetch event, in order,
whether the mutex was held when it was performed (`held` is the state before
the first event). -/
def lockStateAtFetches (held : Bool) : List Event → List Bool
  | [] => []
  | e :: rest =>
    if e.isFetch then held :: lockStateAtFetches (lockStep held e) rest
    else lockStateAtFetches (lockStep held e) rest

/-- Registry well-formedness: keys are pairwise distinct (it is a map), the
stored handles are pairwise distinct and were all created already. -/
def DeviceManager.WF (dm : DeviceManager) : Prop :=
  (dm.devices.map Prod.fst).Nodup ∧ (dm.devices.map Prod.snd).Nodup ∧
    ∀ h ∈ dm.devices.map Prod.snd, h < dm.ctxCount

/-! ## Histories of registry operations -/

/-- A registry operation, with the answers of the collaborators for a
registration. -/
inductive Op where
  | register (env : RegisterEnv) (device : DeviceConfig) (updateInterval : Int)
  | deregister (host : String)
  | deregisterAll

/-- One operation applied to a manager. -/
def applyOp (dm : DeviceManager) : Op → ManagerResult
  | .register env device updateInterval =>
    { dm := (RegisterDevice env dm device updateInterval).dm
      events := (RegisterDevice env dm device updateInterval).events }
  | .deregister host => DeregisterDevice dm host
  | .deregisterAll => DeregisterAll dm

/-- A sequence of operations applied in order (the mutex serialises them);
the events of all of them are collected. -/
def runOps : DeviceManager → List Op → ManagerResult
  | dm, [] => { dm := dm, events := [] }
  | dm, op :: rest =>
    { dm := (runOps (applyOp dm op).dm rest).dm
      events := (applyOp dm op).events ++ (runOps (applyOp dm op).dm rest).events }

/-- Effect of one event on the set of running tasks: a started task is added
under its host and handle, an invoked handle stops the task it belongs to. -/
def liveStep (live : List (String × Nat)) : Event → List (String × Nat)
  | .spawn handle host _ => (host, handle) :: live
  | .cancel handle => live.filter (fun p => decide (p.2 ≠ handle))
  | _ => live

/-- The tasks that were launched and whose handle was not invoked since. -/
def liveTasks (live : List (String × Nat)) (evs : List Event) : List (String × Nat) :=
  evs.foldl liveStep live

/-- Every update of the list succeeds when the list is run in order after
the updates `hist`. -/
def allSucceed (o : Oracle) : List Step → List Step → Bool
  | _, [] => true
  | hist, s :: rest => (o hist s).isNone && allSucceed o (hist ++ [s]) rest

/-! ## Vocabulary of the statements about discovery -/

/-- The kind and the parsed identifier of a key the pattern matches. -/
def componentID (key : String) : Option (String × Int) :=
  (componentKeyRe key).map (fun m => (m.1, (Atoi m.2).1))

/-- The identifiers the keys of one kind parse to, in key order. -/
def valuesOf (kind : String) (keys : List String) : List Int :=
  keys.filterMap (fun key =>
    (componentID key).bind (fun p => if p.1 = kind then some p.2 else none))

/-- The key reads `kind:<one or more ASCII decimal digits>` and `n` is the
integer its digits write. -/
def IsComponentKey (kind : String) (key : String) (n : Int) : Prop :=
  ∃ ds : List Char, isDigits ds = true ∧ key.data = kind.data ++ ':' :: ds ∧
    n = (decimalValue ds : Nat)

/-- The digits of a key the pattern matches write a value of the `int` range
(keys the pattern does not match pass). -/
def fitsInt (key : String) : Bool :=
  match componentKeyRe key with
  | some m => decide ((decimalValue m.2 : Int) ≤ maxInt)
  | none => true

/-! ## Lemmas: the pattern and `Atoi` -/

theorem cutLiteral_eq_some (p s r : List Char) :
    cutLiteral p s = some r ↔ s = p ++ r := by
  induction p generalizing s with
  | nil => simp [cutLiteral, eq_comm]
  | cons a p ih =>
    cases s with
    | nil => simp [cutLiteral]
    | cons c cs =>
      by_cases hac : a = c
      · simp [cutLiteral, hac, ih]
      · simp [cutLiteral, hac]
        intro h; exact absurd h.symm hac

theorem matchAlt_eq_some (kind : String) (key : List Char) (m : String × List Char) :
    matchAlt kind key = some m ↔
      m.1 = kind ∧ isDigits m.2 = true ∧ key = kind.data ++ ':' :: m.2 := by
  unfold matchAlt
  cases hc : cutLiteral (kind.data ++ [':']) key with
  | none =>
    constructor
    · intro h; cases h
    · rintro ⟨_, _, h3⟩
      have : cutLiteral (kind.data ++ [':']) key = some m.2 := by
        rw [cutLiteral_eq_some]; simp [h3]
      rw [hc] at this; cases this
  | some rest =>
    rw [cutLiteral_eq_some] at hc
    simp only [List.append_assoc, List.singleton_append] at hc
    by_cases hd : isDigits rest = true
    · simp only [hd, if_true, Option.some.injEq]
      constructor
      · rintro rfl; exact ⟨rfl, hd, hc⟩
      · rintro ⟨h1, _, h3⟩
        rw [hc] at h3
        have := List.append_cancel_left h3
        simp only [List.cons.injEq, true_and] at this
        exact Prod.ext h1.symm this
    · simp only [hd]
      constructor
      · intro h; cases h
      · rintro ⟨_, h2, h3⟩
        rw [hc] at h3
        have := List.append_cancel_left h3
        simp only [List.cons.injEq, true_and] at this
        rw [this] at hd; exact absurd h2 hd

theorem componentKeyRe_eq_some (key : String) (m : String × List Char) :
    componentKeyRe key = some m ↔
      (m.1 = "switch" ∨ m.1 = "cover") ∧ isDigits m.2 = true ∧
        key.data = m.1.data ++ ':' :: m.2 := by
  unfold componentKeyRe
  cases hs : matchAlt "switch" key.data with
  | some a =>
    have ha := (matchAlt_eq_some _ _ _).1 hs
    simp only [Option.orElse]
    constructor
    · intro h
      cases h
      exact ⟨Or.inl ha.1, ha.2.1, by rw [ha.1]; exact ha.2.2⟩
    · rintro ⟨h1 | h1, h2, h3⟩
      · rw [h1] at h3
        have := (matchAlt_eq_some "switch" key.data m).2 ⟨h1, h2, h3⟩
        rw [hs] at this; exact this
      · rw [h1] at h3
        have h4 := ha.2.2
        rw [h3] at h4
        change ('c' :: _ : List Char) = 's' :: _ at h4
        simp at h4
  | none =>
    simp only [Option.orElse]
    rw [matchAlt_eq_some]
    constructor
    · rintro ⟨h1, h2, h3⟩
      exact ⟨Or.inr h1, h2, by rw [h1]; exact h3⟩
    · rintro ⟨h1 | h1, h2, h3⟩
      · rw [h1] at h3
        have := (matchAlt_eq_some "switch" key.data m).2 ⟨h1, h2, h3⟩
        rw [hs] at this; cases this
      · exact ⟨h1, h2, by rw [h1] at h3; exact h3⟩

theorem isDigits_head_ne {c : Char} {t : List Char} (d : Char) (hd : d.isDigit = false)
    (h : isDigits (c :: t) = true) : c ≠ d := by
  rintro rfl
  simp [isDigits, hd] at h

theorem Atoi_digits (ds : List Char) (h : isDigits ds = true) :
    Atoi ds = if maxInt < ((decimalValue ds : Nat) : Int) then (maxInt, some .ErrRange)
      else (((decimalValue ds : Nat) : Int), none) := by
  unfold Atoi
  split
  · rename_i t
    exact absurd rfl (isDigits_head_ne '-' (by decide) h)
  · rename_i t
    exact absurd rfl (isDigits_head_ne '+' (by decide) h)
  · simp [h]

theorem Atoi_digits_value (ds : List Char) (h : isDigits ds = true) :
    (Atoi ds).1 = min ((decimalValue ds : Nat) : Int) maxInt := by
  rw [Atoi_digits ds h]
  split
  · rename_i hlt; simp [min_eq_right (le_of_lt hlt)]
  · rename_i hlt; simp [min_eq_left (not_lt.1 hlt)]

theorem Atoi_digits_fits (ds : List Char) (h : isDigits ds = true)
    (hfit : ((decimalValue ds : Nat) : Int) ≤ maxInt) :
    Atoi ds = (((decimalValue ds : Nat) : Int), none) := by
  rw [Atoi_digits ds h, if_neg (not_lt.2 hfit)]

/-! ## Lemmas: the discovery loop -/

theorem componentID_eq_some (key : String) (kind : String) (n : Int) :
    componentID key = some (kind, n) ↔
      (kind = "switch" ∨ kind = "cover") ∧
        ∃ ds, isDigits ds = true ∧ key.data = kind.data ++ ':' :: ds ∧ n = (Atoi ds).1 := by
  unfold componentID
  constructor
  · intro h
    rw [Option.map_eq_some'] at h
    obtain ⟨m, hm, hp⟩ := h
    rw [componentKeyRe_eq_some] at hm
    cases hp
    exact ⟨hm.1, m.2, hm.2.1, hm.2.2, rfl⟩
  · rintro ⟨hk, ds, hd, hkey, rfl⟩
    rw [Option.map_eq_some']
    exact ⟨(kind, ds), (componentKeyRe_eq_some key (kind, ds)).2 ⟨hk, hd, hkey⟩, rfl⟩

theorem foldl_discoverKey (raw : List String) (acc : List Int × List Int) :
    raw.foldl discoverKey acc =
      (acc.1 ++ valuesOf "switch" raw, acc.2 ++ valuesOf "cover" raw) := by
  induction raw generalizing acc with
  | nil => simp [valuesOf]
  | cons key rest ih =>
    rw [List.foldl_cons, ih]
    unfold discoverKey valuesOf componentID
    cases hm : componentKeyRe key with
    | none => simp [List.filterMap_cons, hm]
    | some m =>
      obtain ⟨kind, ds⟩ := m
      have hk := ((componentKeyRe_eq_some key (kind, ds)).1 hm).1
      rcases hk with hk | hk
      · simp only at hk
        subst hk
        simp [List.filterMap_cons, hm]
      · simp only at hk
        subst hk
        simp [List.filterMap_cons, hm]

theorem DiscoverComponents_ok (raw : List String) :
    DiscoverComponents (.ok raw) =
      (sortInts (valuesOf "switch" raw), sortInts (valuesOf "cover" raw), none) := by
  simp [DiscoverComponents, foldl_discoverKey]

theorem mem_valuesOf (kind : String) (keys : List String) (n : Int) :
    n ∈ valuesOf kind keys ↔ ∃ key ∈ keys, componentID key = some (kind, n) := by
  unfold valuesOf
  rw [List.mem_filterMap]
  constructor
  · rintro ⟨key, hk, h⟩
    refine ⟨key, hk, ?_⟩
    cases hc : componentID key with
    | none => rw [hc] at h; simp at h
    | some p =>
      rw [hc] at h
      simp only [Option.some_bind] at h
      split at h
      · rename_i hp
        cases h
        rw [← hp]
      · cases h
  · rintro ⟨key, hk, h⟩
    exact ⟨key, hk, by rw [h]; simp⟩

theorem mem_sortInts (l : List Int) (n : Int) : n ∈ sortInts l ↔ n ∈ l :=
  (List.perm_insertionSort _ l).mem_iff

theorem sortInts_sorted (l : List Int) : (sortInts l).Sorted (· ≤ ·) :=
  List.sorted_insertionSort _ l

theorem sortInts_perm (l₁ l₂ : List Int) (h : l₁.Perm l₂) : sortInts l₁ = sortInts l₂ :=
  List.eq_of_perm_of_sorted
    (((List.perm_insertionSort _ l₁).trans h).trans (List.perm_insertionSort _ l₂).symm)
    (sortInts_sorted l₁) (sortInts_sorted l₂)

theorem sortInts_strict (l : List Int) (h : l.Nodup) : (sortInts l).Sorted (· < ·) := by
  have hs := sortInts_sorted l
  have hn : (sortInts l).Nodup := (List.perm_insertionSort _ l).nodup_iff.2 h
  exact (List.Sorted.lt_of_le hs hn)

theorem componentID_iff_isComponentKey (key : String) (kind : String) (n : Int)
    (hk : kind = "switch" ∨ kind = "cover") (hfit : fitsInt key = true) :
    componentID key = some (kind, n) ↔ IsComponentKey kind key n := by
  rw [componentID_eq_some]
  unfold IsComponentKey
  constructor
  · rintro ⟨_, ds, hd, hkey, hn⟩
    refine ⟨ds, hd, hkey, ?_⟩
    have hm := (componentKeyRe_eq_some key (kind, ds)).2 ⟨hk, hd, hkey⟩
    unfold fitsInt at hfit
    rw [hm] at hfit
    simp only [decide_eq_true_eq] at hfit
    rw [hn, Atoi_digits_fits ds hd hfit]
  · rintro ⟨ds, hd, hkey, hn⟩
    refine ⟨hk, ds, hd, hkey, ?_⟩
    have hm := (componentKeyRe_eq_some key (kind, ds)).2 ⟨hk, hd, hkey⟩
    unfold fitsInt at hfit
    rw [hm] at hfit
    simp only [decide_eq_true_eq] at hfit
    rw [hn, Atoi_digits_fits ds hd hfit]

theorem mem_valuesOf_fits (kind : String) (keys : List String) (n : Int)
    (hk : kind = "switch" ∨ kind = "cover") (hfit : keys.all fitsInt = true) :
    n ∈ valuesOf kind keys ↔ ∃ key ∈ keys, IsComponentKey kind key n := by
  rw [mem_valuesOf]
  rw [List.all_eq_true] at hfit
  constructor
  · rintro ⟨key, hmem, h⟩
    exact ⟨key, hmem, (componentID_iff_isComponentKey key kind n hk (hfit key hmem)).1 h⟩
  · rintro ⟨key, hmem, h⟩
    exact ⟨key, hmem, (componentID_iff_isComponentKey key kind n hk (hfit key hmem)).2 h⟩

theorem valuesOf_eq_filterMap (kind : String) (keys : List String) :
    valuesOf kind keys =
      (keys.filterMap componentID).filterMap
        (fun p => if p.1 = kind then some p.2 else none) := by
  unfold valuesOf
  rw [List.filterMap_filterMap]

theorem valuesOf_nodup (kind : String) (keys : List String)
    (h : (keys.filterMap componentID).Nodup) : (valuesOf kind keys).Nodup := by
  rw [valuesOf_eq_filterMap]
  refine List.Nodup.filterMap ?_ h
  intro a a' b hb hb'
  simp only [Option.mem_def] at hb hb'
  split at hb
  · split at hb'
    · rename_i h1 h2
      simp only [Option.some.injEq] at hb hb'
      exact Prod.ext (h1.trans h2.symm) (hb.trans hb'.symm)
    · cases hb'
  · cases hb

theorem valuesOf_perm (kind : String) (k₁ k₂ : List String) (h : k₁.Perm k₂) :
    (valuesOf kind k₁).Perm (valuesOf kind k₂) :=
  h.filterMap _

/-- The result of discovery does not depend on the order in which the map
iteration visits the keys. -/
theorem DiscoverComponents_order_independent (k₁ k₂ : List String) (h : k₁.Perm k₂) :
    DiscoverComponents (.ok k₁) = DiscoverComponents (.ok k₂) := by
  rw [DiscoverComponents_ok, DiscoverComponents_ok,
    sortInts_perm _ _ (valuesOf_perm "switch" k₁ k₂ h),
    sortInts_perm _ _ (valuesOf_perm "cover" k₁ k₂ h)]

/-- The example of the specification, evaluated. -/
theorem DiscoverComponents_example :
    DiscoverComponents (.ok ["switch:2", "cover:0", "switch:1", "relay:3", "switch:abc"])
      = ([1, 2], [0], none) := by
  decide

/-- Keys that are close to the pattern but do not match it contribute
nothing. -/
theorem DiscoverComponents_near_misses :
    DiscoverComponents (.ok ["relay:3", "switch:abc", "switch:", "switch:1 ", "xswitch:1"])
      = ([], [], none) := by
  decide

theorem componentID_kind (key : String) (p : String × Int) (h : componentID key = some p) :
    p.1 = "switch" ∨ p.1 = "cover" :=
  ((componentID_eq_some key p.1 p.2).1 h).1

theorem pairs_nodup_of_values_nodup (P : List (String × Int))
    (hkind : ∀ p ∈ P, p.1 = "switch" ∨ p.1 = "cover")
    (hs : (P.filterMap (fun p => if p.1 = "switch" then some p.2 else none)).Nodup)
    (hc : (P.filterMap (fun p => if p.1 = "cover" then some p.2 else none)).Nodup) :
    P.Nodup := by
  induction P with
  | nil => exact List.nodup_nil
  | cons p rest ih =>
    have hrest : ∀ q ∈ rest, q.1 = "switch" ∨ q.1 = "cover" :=
      fun q hq => hkind q (List.mem_cons_of_mem _ hq)
    rcases hkind p (List.mem_cons_self _ _) with hk | hk
    · have hne : ¬ p.1 = "cover" := by rw [hk]; decide
      simp only [List.filterMap_cons, hk, if_true, List.nodup_cons] at hs
      simp only [List.filterMap_cons, hne, if_false] at hc
      refine List.nodup_cons.2 ⟨?_, ih hrest hs.2 hc⟩
      intro hmem
      apply hs.1
      rw [List.mem_filterMap]
      exact ⟨p, hmem, by simp [hk]⟩
    · have hne : ¬ p.1 = "switch" := by rw [hk]; decide
      simp only [List.filterMap_cons, hk, if_true, List.nodup_cons] at hc
      simp only [List.filterMap_cons, hne, if_false] at hs
      refine List.nodup_cons.2 ⟨?_, ih hrest hs hc.2⟩
      intro hmem
      apply hc.1
      rw [List.mem_filterMap]
      exact ⟨p, hmem, by simp [hk]⟩

theorem componentIDs_nodup_of_values (keys : List String)
    (hs : (valuesOf "switch" keys).Nodup) (hc : (valuesOf "cover" keys).Nodup) :
    (keys.filterMap componentID).Nodup := by
  rw [valuesOf_eq_filterMap] at hs hc
  refine pairs_nodup_of_values_nodup _ ?_ hs hc
  intro p hp
  rw [List.mem_filterMap] at hp
  obtain ⟨key, _, hkey⟩ := hp
  exact componentID_kind key p hkey

theorem nodup_of_sortInts_strict (l : List Int) (h : (sortInts l).Sorted (· < ·)) :
    l.Nodup :=
  (List.perm_insertionSort _ l).nodup_iff.1 h.nodup

theorem count_sortInts (l : List Int) (n : Int) : (sortInts l).count n = l.count n :=
  (List.perm_insertionSort _ l).count_eq n

theorem count_valuesOf (kind : String) (keys : List String) (n : Int) :
    (valuesOf kind keys).count n
      = keys.countP (fun key => decide (componentID key = some (kind, n))) := by
  induction keys with
  | nil => simp [valuesOf]
  | cons key rest ih =>
    unfold valuesOf at ih ⊢
    rw [List.countP_cons, ← ih]
    cases hc : componentID key with
    | none => simp [List.filterMap_cons, hc]
    | some p =>
      obtain ⟨k, v⟩ := p
      by_cases hk : k = kind
      · subst hk
        by_cases hv : v = n
        · subst hv
          simp [List.filterMap_cons, hc]
        · simp [List.filterMap_cons, hc, hv, List.count_cons]
      · simp [List.filterMap_cons, hc, hk]

/-- What the code returns for every key list: an integer is in the switch
(cover) sequence exactly when some key reads `switch:<digits>` (`cover:<digits>`)
and the integer is the value its digits write, capped at the largest `int`. -/
theorem DiscoverComponents_mem_capped (keys : List String) (n : Int) :
    (n ∈ (DiscoverComponents (.ok keys)).1 ↔
      ∃ key ∈ keys, ∃ ds, isDigits ds = true ∧ key.data = "switch".data ++ ':' :: ds ∧
        n = min ((decimalValue ds : Nat) : Int) maxInt) ∧
    (n ∈ (DiscoverComponents (.ok keys)).2.1 ↔
      ∃ key ∈ keys, ∃ ds, isDigits ds = true ∧ key.data = "cover".data ++ ':' :: ds ∧
        n = min ((decimalValue ds : Nat) : Int) maxInt) := by
  rw [DiscoverComponents_ok]
  simp only [mem_sortInts, mem_valuesOf]
  constructor
  · constructor
    · rintro ⟨key, hk, hid⟩
      obtain ⟨_, ds, hd, hkey, hn⟩ := (componentID_eq_some key _ n).1 hid
      exact ⟨key, hk, ds, hd, hkey, by rw [hn, Atoi_digits_value ds hd]⟩
    · rintro ⟨key, hk, ds, hd, hkey, hn⟩
      exact ⟨key, hk, (componentID_eq_some key _ n).2
        ⟨Or.inl rfl, ds, hd, hkey, by rw [hn, Atoi_digits_value ds hd]⟩⟩
  · constructor
    · rintro ⟨key, hk, hid⟩
      obtain ⟨_, ds, hd, hkey, hn⟩ := (componentID_eq_some key _ n).1 hid
      exact ⟨key, hk, ds, hd, hkey, by rw [hn, Atoi_digits_value ds hd]⟩
    · rintro ⟨key, hk, ds, hd, hkey, hn⟩
      exact ⟨key, hk, (componentID_eq_some key _ n).2
        ⟨Or.inr rfl, ds, hd, hkey, by rw [hn, Atoi_digits_value ds hd]⟩⟩

/-! ## Claims about discovery -/

/-- C1 (as amended): when every key the pattern matches has digits writing a
value of the `int` range, `switchIDs` holds exactly the integers written by
the keys `switch:<digits>` and `coverIDs` exactly those written by the keys
`cover:<digits>`; no other key contributes, and the error is nil. -/
theorem DiscoverComponents_exact (keys : List String) (hfit : keys.all fitsInt = true)
    (n : Int) :
    (n ∈ (DiscoverComponents (.ok keys)).1 ↔ ∃ key ∈ keys, IsComponentKey "switch" key n) ∧
    (n ∈ (DiscoverComponents (.ok keys)).2.1 ↔ ∃ key ∈ keys, IsComponentKey "cover" key n) ∧
    (DiscoverComponents (.ok keys)).2.2 = none := by
  rw [DiscoverComponents_ok]
  refine ⟨?_, ?_, rfl⟩
  · simp only [mem_sortInts]
    exact mem_valuesOf_fits "switch" keys n (Or.inl rfl) hfit
  · simp only [mem_sortInts]
    exact mem_valuesOf_fits "cover" keys n (Or.inr rfl) hfit

/-- C1 witness: the theorem at the example of the specification, for the
identifier 2. -/
theorem DiscoverComponents_exact_witness :
    (["switch:2", "cover:0", "switch:1", "relay:3", "switch:abc"].all fitsInt = true) ∧
    ((2 ∈ (DiscoverComponents
        (.ok ["switch:2", "cover:0", "switch:1", "relay:3", "switch:abc"])).1 ↔
      ∃ key ∈ ["switch:2", "cover:0", "switch:1", "relay:3", "switch:abc"],
        IsComponentKey "switch" key 2) ∧
    (2 ∈ (DiscoverComponents
        (.ok ["switch:2", "cover:0", "switch:1", "relay:3", "switch:abc"])).2.1 ↔
      ∃ key ∈ ["switch:2", "cover:0", "switch:1", "relay:3", "switch:abc"],
        IsComponentKey "cover" key 2) ∧
    (DiscoverComponents
      (.ok ["switch:2", "cover:0", "switch:1", "relay:3", "switch:abc"])).2.2 = none) :=
  ⟨by decide, DiscoverComponents_exact _ (by decide) 2⟩

/-- C1 counterexample: the key `switch:99999999999999999999` has the form
`switch:<digits>` and writes 99999999999999999999, yet that integer is not in
`switchIDs`, which holds 9223372036854775807 instead. -/
theorem DiscoverComponents_exact_fails_out_of_range :
    IsComponentKey "switch" "switch:99999999999999999999" 99999999999999999999 ∧
    (99999999999999999999 : Int) ∉
      (DiscoverComponents (.ok ["switch:99999999999999999999"])).1 ∧
    (9223372036854775807 : Int) ∈
      (DiscoverComponents (.ok ["switch:99999999999999999999"])).1 ∧
    ¬ IsComponentKey "switch" "switch:99999999999999999999" 9223372036854775807 := by
  refine ⟨⟨"99999999999999999999".data, by decide, by decide, by decide⟩, by decide, by decide, ?_⟩
  rintro ⟨ds, _, hkey, hn⟩
  have hds : ds = "99999999999999999999".data := by
    have h : ("switch".data ++ ':' :: "99999999999999999999".data) = "switch".data ++ ':' :: ds :=
      hkey
    have := List.append_cancel_left h
    simp only [List.cons.injEq, true_and] at this
    exact this.symm
  subst hds
  revert hn
  decide

/-- C9 (failing input): the key `switch:99999999999999999999` matches the
pattern, `Atoi` reports a range error for its digits, and the key still
contributes an element, the upper bound of `int`, to `switchIDs`. -/
theorem DiscoverComponents_keeps_key_on_range_error :
    componentKeyRe "switch:99999999999999999999"
      = some ("switch", "99999999999999999999".data) ∧
    Atoi "99999999999999999999".data = (9223372036854775807, some .ErrRange) ∧
    DiscoverComponents (.ok ["switch:99999999999999999999"])
      = ([9223372036854775807], [], none) := by
  decide

/-- C2 (as amended): both sequences are sorted in non-decreasing order; an
integer occurs in a sequence once for every key of that kind that parses to
it; hence the sequences are strictly ascending (free of duplicates) exactly
when no two keys of the same kind parse to the same integer. -/
theorem DiscoverComponents_sorted (keys : List String) :
    (DiscoverComponents (.ok keys)).1.Sorted (· ≤ ·) ∧
    (DiscoverComponents (.ok keys)).2.1.Sorted (· ≤ ·) ∧
    (∀ n : Int, (DiscoverComponents (.ok keys)).1.count n
      = keys.countP (fun key => decide (componentID key = some ("switch", n)))) ∧
    (∀ n : Int, (DiscoverComponents (.ok keys)).2.1.count n
      = keys.countP (fun key => decide (componentID key = some ("cover", n)))) ∧
    (((DiscoverComponents (.ok keys)).1.Sorted (· < ·) ∧
      (DiscoverComponents (.ok keys)).2.1.Sorted (· < ·)) ↔
      (keys.filterMap componentID).Nodup) := by
  rw [DiscoverComponents_ok]
  refine ⟨sortInts_sorted _, sortInts_sorted _, ?_, ?_, ?_, fun h => ⟨?_, ?_⟩⟩
  · intro n
    rw [count_sortInts, count_valuesOf]
  · intro n
    rw [count_sortInts, count_valuesOf]
  · rintro ⟨h1, h2⟩
    exact componentIDs_nodup_of_values keys (nodup_of_sortInts_strict _ h1)
      (nodup_of_sortInts_strict _ h2)
  · exact sortInts_strict _ (valuesOf_nodup "switch" keys h)
  · exact sortInts_strict _ (valuesOf_nodup "cover" keys h)

/-- C2 counterexample: the distinct keys `switch:1` and `switch:01` give
`switchIDs = [1, 1]`, which is not strictly ascending. -/
theorem DiscoverComponents_not_strict :
    ["switch:1", "switch:01"].Nodup ∧
    DiscoverComponents (.ok ["switch:1", "switch:01"]) = ([1, 1], [], none) ∧
    ¬ (DiscoverComponents (.ok ["switch:1", "switch:01"])).1.Sorted (· < ·) := by
  decide

/-- C3: a failed status fetch yields a non-nil error wrapping the fetch error
together with two nil sequences; a successful fetch yields a nil error. -/
theorem DiscoverComponents_error_contract (e : GoError) (keys : List String) :
    (∃ err, DiscoverComponents (.error e) = ([], [], some err) ∧ err.unwrap = some e) ∧
    (DiscoverComponents (.ok keys)).2.2 = none := by
  refine ⟨⟨.wrap "failed to discover components" e, rfl, rfl⟩, ?_⟩
  rw [DiscoverComponents_ok]

/-! ## Lemmas: the registry map -/

theorem mapLookup_eq_none (m : List (String × Nat)) (k : String) :
    mapLookup m k = none ↔ k ∉ m.map Prod.fst := by
  induction m with
  | nil => simp [mapLookup]
  | cons p rest ih =>
    obtain ⟨k', v⟩ := p
    by_cases h : k' = k
    · simp [mapLookup, h]
    · have h' : ¬ k = k' := fun e => h e.symm
      simp only [mapLookup, h, if_false, ih, List.map_cons, List.mem_cons, h', false_or]

theorem mapLookup_mem (m : List (String × Nat)) (k : String) (c : Nat)
    (h : mapLookup m k = some c) : (k, c) ∈ m := by
  induction m with
  | nil => simp [mapLookup] at h
  | cons p rest ih =>
    obtain ⟨k', v⟩ := p
    by_cases hk : k' = k
    · simp only [mapLookup, hk, if_true, Option.some.injEq] at h
      simp [hk, h]
    · simp only [mapLookup, hk, if_false] at h
      exact List.mem_cons_of_mem _ (ih h)

theorem mapLookup_mapDelete (m : List (String × Nat)) (host k : String) :
    mapLookup (mapDelete m host) k = if k = host then none else mapLookup m k := by
  induction m with
  | nil => simp [mapDelete, mapLookup]
  | cons p rest ih =>
    obtain ⟨k', v⟩ := p
    unfold mapDelete at ih ⊢
    by_cases h1 : k' = host
    · subst h1
      simp only [List.filter_cons, ne_eq, not_true_eq_false, decide_False, Bool.false_eq_true,
        if_false, ih, mapLookup]
      by_cases h2 : k = k'
      · simp [h2]
      · have : ¬ k' = k := fun e => h2 e.symm
        simp [h2, this]
    · simp only [List.filter_cons, ne_eq, h1, not_false_eq_true, decide_True, if_true,
        mapLookup, ih]
      by_cases h2 : k' = k
      · subst h2
        simp [h1]
      · simp [h2]

theorem mapDelete_absent (m : List (String × Nat)) (host : String)
    (h : mapLookup m host = none) : mapDelete m host = m := by
  rw [mapLookup_eq_none] at h
  unfold mapDelete
  rw [List.filter_eq_self]
  intro p hp
  simp only [ne_eq, decide_eq_true_eq]
  intro e
  exact h (List.mem_map.2 ⟨p, hp, e⟩)

theorem mapLookup_mapSet (m : List (String × Nat)) (host k : String) (v : Nat) :
    mapLookup (mapSet m host v) k = if k = host then some v else mapLookup m k := by
  unfold mapSet
  by_cases h : host = k
  · simp [mapLookup, h]
  · have h' : ¬ k = host := fun e => h e.symm
    simp [mapLookup, h, h', mapLookup_mapDelete]

theorem cancelEach_count (m : List (String × Nat)) (c : Nat) :
    (cancelEach m).count (.cancel c) = (m.map Prod.snd).count c := by
  induction m with
  | nil => simp [cancelEach]
  | cons p rest ih =>
    obtain ⟨k, v⟩ := p
    by_cases h : v = c
    · simp [cancelEach, List.count_cons, ih, h]
    · simp [cancelEach, List.count_cons, ih, h]

theorem mem_cancelEach (m : List (String × Nat)) (c : Nat) :
    Event.cancel c ∈ cancelEach m ↔ c ∈ m.map Prod.snd := by
  induction m with
  | nil => simp [cancelEach]
  | cons p rest ih =>
    obtain ⟨k, v⟩ := p
    simp only [cancelEach, List.mem_cons, ih, List.map_cons, Event.cancel.injEq]
    simp [eq_comm]

/-! ## Lemmas: well-formedness is kept by every operation -/

theorem NewDeviceManager_WF : NewDeviceManager.WF := by
  simp [DeviceManager.WF, NewDeviceManager]

theorem RegisterDevice_WF (env : RegisterEnv) (dm : DeviceManager) (device : DeviceConfig)
    (updateInterval : Int) (hwf : dm.WF) :
    (RegisterDevice env dm device updateInterval).dm.WF := by
  unfold RegisterDevice
  split
  · exact hwf
  · rename_i h
    have habs : mapLookup dm.devices device.Host = none := by
      cases hl : mapLookup dm.devices device.Host with
      | none => rfl
      | some c => rw [hl] at h; simp at h
    obtain ⟨hk, hv, hlt⟩ := hwf
    simp only [DeviceManager.WF, mapSet, mapDelete_absent _ _ habs, List.map_cons,
      List.nodup_cons, List.mem_cons]
    refine ⟨⟨(mapLookup_eq_none _ _).1 habs, hk⟩, ⟨?_, hv⟩, ?_⟩
    · intro hmem
      exact absurd (hlt _ hmem) (lt_irrefl _)
    · rintro c (rfl | hc)
      · exact Nat.lt_succ_self _
      · exact Nat.lt_succ_of_lt (hlt c hc)

theorem DeregisterDevice_WF (dm : DeviceManager) (host : String) (hwf : dm.WF) :
    (DeregisterDevice dm host).dm.WF := by
  unfold DeregisterDevice
  split
  · exact hwf
  · obtain ⟨hk, hv, hlt⟩ := hwf
    have hsub : (mapDelete dm.devices host).Sublist dm.devices := List.filter_sublist _
    refine ⟨(hsub.map _).nodup hk, (hsub.map _).nodup hv, ?_⟩
    intro c hc
    exact hlt c ((hsub.map _).subset hc)

theorem DeregisterAll_WF (dm : DeviceManager) : (DeregisterAll dm).dm.WF := by
  simp [DeregisterAll, DeviceManager.WF]

/-! ## Lemmas: running tasks and the registry -/

theorem liveTasks_append (live : List (String × Nat)) (a b : List Event) :
    liveTasks live (a ++ b) = liveTasks (liveTasks live a) b := by
  simp [liveTasks, List.foldl_append]

theorem liveTasks_discoveryErrorLog (live : List (String × Nat)) (err : Option GoError) :
    liveTasks live (discoveryErrorLog err) = live := by
  cases err <;> simp [discoveryErrorLog, liveTasks, liveStep]

theorem liveTasks_cancelEach (live m : List (String × Nat)) :
    liveTasks live (cancelEach m) =
      live.filter (fun p => decide (p.2 ∉ m.map Prod.snd)) := by
  induction m generalizing live with
  | nil => simp [cancelEach, liveTasks]
  | cons q rest ih =>
    obtain ⟨k, c⟩ := q
    have hstep : liveTasks live (cancelEach ((k, c) :: rest)) =
        liveTasks (live.filter (fun p => decide (p.2 ≠ c))) (cancelEach rest) := by
      simp [cancelEach, liveTasks, liveStep]
    rw [hstep, ih, List.filter_filter]
    apply List.filter_congr
    intro p _
    simp only [List.map_cons, List.mem_cons, not_or, ne_eq]
    by_cases h1 : p.2 = c <;> by_cases h2 : p.2 ∈ rest.map Prod.snd <;> simp [h1, h2]

theorem key_ne_iff_handle_ne (dm : DeviceManager) (hwf : dm.WF) (host : String) (c : Nat)
    (hmem : (host, c) ∈ dm.devices) (p : String × Nat) (hp : p ∈ dm.devices) :
    p.1 ≠ host ↔ p.2 ≠ c := by
  obtain ⟨hk, hv, _⟩ := hwf
  constructor
  · intro h1 h2
    have := List.inj_on_of_nodup_map hv hp hmem h2
    exact h1 (by rw [this])
  · intro h1 h2
    have := List.inj_on_of_nodup_map hk hp hmem h2
    exact h1 (by rw [this])

/-- One operation keeps the running tasks equal to the registry entries. -/
theorem applyOp_live (dm : DeviceManager) (hwf : dm.WF) (op : Op) :
    liveTasks dm.devices (applyOp dm op).events = (applyOp dm op).dm.devices := by
  cases op with
  | register env device updateInterval =>
    simp only [applyOp]
    unfold RegisterDevice
    split
    · simp [liveTasks, liveStep]
    · rename_i h
      have habs : mapLookup dm.devices device.Host = none := by
        cases hl : mapLookup dm.devices device.Host with
        | none => rfl
        | some c => rw [hl] at h; simp at h
      simp only [liveTasks_append, liveTasks_discoveryErrorLog, mapSet,
        mapDelete_absent _ _ habs]
      simp [liveTasks, liveStep]
  | deregister host =>
    simp only [applyOp]
    unfold DeregisterDevice
    split
    · simp [liveTasks, liveStep]
    · rename_i c hc
      simp only [liveTasks, liveStep, List.foldl_cons, List.foldl_nil, mapDelete]
      apply List.filter_congr
      intro p hp
      have := key_ne_iff_handle_ne dm hwf host c (mapLookup_mem _ _ _ hc) p hp
      simp only [decide_eq_decide]
      exact this.symm
  | deregisterAll =>
    simp only [applyOp, DeregisterAll, liveTasks_append, liveTasks_cancelEach]
    simp only [liveTasks, liveStep, List.foldl_cons, List.foldl_nil]
    rw [List.filter_eq_nil_iff]
    intro p hp
    simp only [decide_eq_true_eq, not_not]
    exact List.mem_map_of_mem _ hp

theorem applyOp_WF (dm : DeviceManager) (hwf : dm.WF) (op : Op) : (applyOp dm op).dm.WF := by
  cases op with
  | register env device updateInterval => exact RegisterDevice_WF env dm device updateInterval hwf
  | deregister host => exact DeregisterDevice_WF dm host hwf
  | deregisterAll => exact DeregisterAll_WF dm

theorem runOps_invariant (dm : DeviceManager) (hwf : dm.WF) (ops : List Op) :
    (runOps dm ops).dm.WF ∧
      liveTasks dm.devices (runOps dm ops).events = (runOps dm ops).dm.devices := by
  induction ops generalizing dm with
  | nil => exact ⟨hwf, rfl⟩
  | cons op rest ih =>
    have h1 := applyOp_WF dm hwf op
    have h2 := applyOp_live dm hwf op
    obtain ⟨h3, h4⟩ := ih (applyOp dm op).dm h1
    refine ⟨h3, ?_⟩
    simp only [runOps, liveTasks_append, h2, h4]

/-- In every state reached from the empty registry the keys are distinct, the
handles are distinct, and the running tasks are exactly the registry
entries. -/
theorem registry_invariant (ops : List Op) :
    (runOps NewDeviceManager ops).dm.WF ∧
      liveTasks [] (runOps NewDeviceManager ops).events
        = (runOps NewDeviceManager ops).dm.devices :=
  runOps_invariant NewDeviceManager NewDeviceManager_WF ops

theorem count_key_of_lookup (m : List (String × Nat)) (hk : (m.map Prod.fst).Nodup)
    (host : String) (h : (mapLookup m host).isSome = true) :
    (m.map Prod.fst).count host = 1 := by
  apply List.count_eq_one_of_mem hk
  by_contra hn
  rw [(mapLookup_eq_none m host).2 hn] at h
  simp at h

/-! ## Claims about the registry -/

/-- C4: registering a host that is already a key of the registry is a no-op:
the manager and the `DeviceConfig` are returned unchanged and the only effects
are the mutex operations and one warning (no fetch, no cancellation, no new
task).  In any state reached from the empty registry the host then has exactly
one entry and exactly one running task. -/
theorem RegisterDevice_registered_noop (env : RegisterEnv) (dm : DeviceManager)
    (device : DeviceConfig) (updateInterval : Int)
    (h : (mapLookup dm.devices device.Host).isSome = true) :
    (RegisterDevice env dm device updateInterval).dm = dm ∧
    (RegisterDevice env dm device updateInterval).device = device ∧
    (RegisterDevice env dm device updateInterval).events
      = [.lock, .log "WARN" "Device already registered", .unlock] ∧
    (∀ ops, (runOps NewDeviceManager ops).dm = dm →
      ((RegisterDevice env dm device updateInterval).dm.devices.map Prod.fst).count
          device.Host = 1 ∧
      ((liveTasks [] ((runOps NewDeviceManager ops).events
          ++ (RegisterDevice env dm device updateInterval).events)).map Prod.fst).count
          device.Host = 1) := by
  have hr : RegisterDevice env dm device updateInterval
      = { dm := dm, device := device,
          events := [.lock, .log "WARN" "Device already registered", .unlock],
          goroutine := none } := by
    unfold RegisterDevice
    rw [if_pos h]
  rw [hr]
  refine ⟨rfl, rfl, rfl, ?_⟩
  intro ops hops
  obtain ⟨hwf, hlive⟩ := registry_invariant ops
  rw [hops] at hwf hlive
  refine ⟨count_key_of_lookup _ hwf.1 _ h, ?_⟩
  rw [liveTasks_append, hlive]
  simp only [liveTasks, liveStep, List.foldl_cons, List.foldl_nil]
  exact count_key_of_lookup _ hwf.1 _ h

/-- C4 witness: the host `shelly-1` registered a second time. -/
theorem RegisterDevice_registered_noop_witness :
    (mapLookup [("shelly-1", 0)] "shelly-1").isSome = true ∧
    (RegisterDevice
        { deviceInfoErr := none, deviceType := "plus", deviceMac := "AA", deviceProfile := "sw",
          status := .ok ["switch:0"] }
        { devices := [("shelly-1", 0)], ctxCount := 1 }
        { Host := "shelly-1", Username := "", Password := "", DeviceType := "", Mac := "",
          Profile := "", SwitchIDs := [7], CoverIDs := [] } 10).dm
      = { devices := [("shelly-1", 0)], ctxCount := 1 } :=
  ⟨by decide, (RegisterDevice_registered_noop _ _ _ 10 (by decide)).1⟩

/-- C5: after `RegisterDevice` the host has an entry; `DeregisterDevice`
erases exactly the key of the host and leaves every other entry as it was; if
the host was present its handle is invoked once and no other handle is; if the
host was absent the manager is unchanged and no handle is invoked. -/
theorem RegisterDevice_DeregisterDevice (env : RegisterEnv) (dm : DeviceManager)
    (device : DeviceConfig) (updateInterval : Int) (host : String) :
    (mapLookup (RegisterDevice env dm device updateInterval).dm.devices device.Host).isSome
      = true ∧
    (DeregisterDevice dm host).dm.devices = mapDelete dm.devices host ∧
    (∀ k, mapLookup (DeregisterDevice dm host).dm.devices k
      = if k = host then none else mapLookup dm.devices k) ∧
    (∀ c, mapLookup dm.devices host = some c →
      (DeregisterDevice dm host).events.filter Event.isCancel = [.cancel c]) ∧
    (mapLookup dm.devices host = none →
      (DeregisterDevice dm host).dm = dm ∧
      (DeregisterDevice dm host).events.filter Event.isCancel = []) := by
  have hdel : (DeregisterDevice dm host).dm.devices = mapDelete dm.devices host := by
    unfold DeregisterDevice
    split
    · rename_i hn
      exact (mapDelete_absent _ _ hn).symm
    · rfl
  refine ⟨?_, hdel, ?_, ?_, ?_⟩
  · unfold RegisterDevice
    split
    · assumption
    · simp [mapLookup_mapSet]
  · intro k
    rw [hdel, mapLookup_mapDelete]
  · intro c hc
    unfold DeregisterDevice
    rw [hc]
    simp [Event.isCancel]
  · intro hn
    unfold DeregisterDevice
    rw [hn]
    simp [Event.isCancel]

/-- C6: `DeregisterAll` invokes the handle of every registered host exactly
once, invokes no other handle, and leaves the registry empty; a registration
of any host that follows is accepted as a new one: the host gets an entry with
a fresh handle and a task is started. -/
theorem DeregisterAll_cancels_all (dm : DeviceManager) (hwf : dm.WF) :
    (∀ p ∈ dm.devices, (DeregisterAll dm).events.count (.cancel p.2) = 1) ∧
    (∀ c, Event.cancel c ∈ (DeregisterAll dm).events → c ∈ dm.devices.map Prod.snd) ∧
    (DeregisterAll dm).dm.devices = [] ∧
    (∀ (env : RegisterEnv) (device : DeviceConfig) (updateInterval : Int),
      mapLookup (RegisterDevice env (DeregisterAll dm).dm device updateInterval).dm.devices
          device.Host = some dm.ctxCount ∧
      Event.spawn dm.ctxCount device.Host updateInterval
        ∈ (RegisterDevice env (DeregisterAll dm).dm device updateInterval).events) := by
  refine ⟨?_, ?_, rfl, ?_⟩
  · intro p hp
    simp only [DeregisterAll, List.count_append, cancelEach_count]
    have h1 : (dm.devices.map Prod.snd).count p.2 = 1 :=
      List.count_eq_one_of_mem hwf.2.1 (List.mem_map_of_mem _ hp)
    rw [h1]
    simp [List.count_cons]
  · intro c hc
    simp only [DeregisterAll, List.mem_append, List.mem_cons, List.mem_singleton,
      mem_cancelEach] at hc
    rcases hc with (hc | hc) | hc
    · rcases hc with hc | hc
      · cases hc
      · cases hc
    · exact hc
    · rcases hc with hc | hc | hc
      · cases hc
      · cases hc
      · cases hc
  · intro env device updateInterval
    simp [RegisterDevice, DeregisterAll, mapLookup, mapLookup_mapSet]

/-- C6 witness: a registry with two hosts. -/
theorem DeregisterAll_cancels_all_witness :
    DeviceManager.WF { devices := [("b", 1), ("a", 0)], ctxCount := 2 } ∧
    (DeregisterAll { devices := [("b", 1), ("a", 0)], ctxCount := 2 }).dm.devices = [] :=
  ⟨by simp [DeviceManager.WF],
    (DeregisterAll_cancels_all _ (by simp [DeviceManager.WF])).2.2.1⟩

/-! ## Lemmas: the pipeline -/

theorem runPlan_append (o : Oracle) (a b hist : List Step) :
    runPlan o (a ++ b) hist =
      match runPlan o a hist with
      | (some err, hist1) => (some err, hist1)
      | (none, hist1) => runPlan o b hist1 := by
  induction a generalizing hist with
  | nil => simp [runPlan]
  | cons s rest ih =>
    simp only [List.cons_append, runPlan]
    cases o hist s with
    | some err => rfl
    | none => exact ih _

theorem switchLoop_eq_runPlan (o : Oracle) (mac : String) (ids : List Int) (hist : List Step) :
    switchLoop o mac ids hist =
      runPlan o (ids.flatMap (fun id => [.switchStatus id mac, .switchConfig id mac])) hist := by
  induction ids generalizing hist with
  | nil => simp [switchLoop, runPlan]
  | cons id rest ih =>
    simp only [switchLoop, List.flatMap_cons, List.cons_append, List.nil_append, runPlan,
      stepMessage]
    cases o hist (.switchStatus id mac) with
    | some err => rfl
    | none =>
      simp only
      cases o (hist ++ [.switchStatus id mac]) (.switchConfig id mac) with
      | some err => rfl
      | none => exact ih _

theorem coverLoop_eq_runPlan (o : Oracle) (mac : String) (ids : List Int) (hist : List Step) :
    coverLoop o mac ids hist =
      runPlan o (ids.map (fun id => .coverStatus id mac)) hist := by
  induction ids generalizing hist with
  | nil => simp [coverLoop, runPlan]
  | cons id rest ih =>
    simp only [coverLoop, List.map_cons, runPlan, stepMessage]
    cases o hist (.coverStatus id mac) with
    | some err => rfl
    | none => exact ih _

/-- The function of the source runs the plan of the specification. -/
theorem fetchAndUpdateMetrics_eq_runPlan (o : Oracle) (device : DeviceConfig) :
    fetchAndUpdateMetrics o device = runPlan o (pipelinePlan device) [] := by
  have hplan : pipelinePlan device = .deviceInfo :: .status :: .config ::
      (device.SwitchIDs.flatMap
          (fun id => [Step.switchStatus id device.Mac, Step.switchConfig id device.Mac])
        ++ (device.CoverIDs.map (fun id => Step.coverStatus id device.Mac)
          ++ [.wifi device.Mac])) := by
    simp [pipelinePlan]
  rw [hplan]
  unfold fetchAndUpdateMetrics
  simp only [runPlan, stepMessage, List.nil_append, List.cons_append]
  cases o [] .deviceInfo with
  | some err => rfl
  | none =>
    simp only
    cases o [.deviceInfo] .status with
    | some err => rfl
    | none =>
      simp only
      cases o [.deviceInfo, .status] .config with
      | some err => rfl
      | none =>
        simp only
        rw [runPlan_append, ← switchLoop_eq_runPlan]
        cases hs : switchLoop o device.Mac device.SwitchIDs [.deviceInfo, .status, .config] with
        | mk e1 h1 =>
          cases e1 with
          | some err => rfl
          | none =>
            simp only
            rw [runPlan_append, ← coverLoop_eq_runPlan]
            cases hc : coverLoop o device.Mac device.CoverIDs h1 with
            | mk e2 h2 =>
              cases e2 with
              | some err => rfl
              | none =>
                simp only [runPlan, stepMessage]

theorem runPlan_none_iff (o : Oracle) (plan hist : List Step) :
    (runPlan o plan hist).1 = none ↔ allSucceed o hist plan = true := by
  induction plan generalizing hist with
  | nil => simp [runPlan, allSucceed]
  | cons s rest ih =>
    simp only [runPlan, allSucceed]
    cases o hist s with
    | some err => simp
    | none => simpa using ih _

theorem runPlan_none_steps (o : Oracle) (plan hist : List Step)
    (h : (runPlan o plan hist).1 = none) : (runPlan o plan hist).2 = hist ++ plan := by
  induction plan generalizing hist with
  | nil => simp [runPlan]
  | cons s rest ih =>
    simp only [runPlan] at h ⊢
    cases hs : o hist s with
    | some err => rw [hs] at h; simp at h
    | none =>
      rw [hs] at h
      simp only at h ⊢
      rw [ih _ h]
      simp

theorem runPlan_some (o : Oracle) (plan hist : List Step) (err : GoError)
    (h : (runPlan o plan hist).1 = some err) :
    ∃ pre s post e, plan = pre ++ s :: post ∧ allSucceed o hist pre = true ∧
      o (hist ++ pre) s = some e ∧ (runPlan o plan hist).2 = hist ++ pre ++ [s] ∧
      err = .wrap (stepMessage s) e := by
  induction plan generalizing hist with
  | nil => simp [runPlan] at h
  | cons s rest ih =>
    simp only [runPlan] at h ⊢
    cases hs : o hist s with
    | some e =>
      rw [hs] at h
      simp only [Option.some.injEq] at h
      exact ⟨[], s, rest, e, rfl, rfl, by simpa using hs, by simp, h.symm⟩
    | none =>
      rw [hs] at h
      simp only at h ⊢
      obtain ⟨pre, s1, post, e, hp, ha, ho, hsteps, herr⟩ := ih _ h
      refine ⟨s :: pre, s1, post, e, by rw [hp]; rfl, ?_, ?_, ?_, herr⟩
      · simp [allSucceed, hs, ha]
      · simpa using ho
      · simpa using hsteps

theorem wifi_not_mem_front (device : DeviceConfig) (mac : String) :
    Step.wifi mac ∉ ([.deviceInfo, .status, .config]
      ++ device.SwitchIDs.flatMap
          (fun id => [Step.switchStatus id device.Mac, Step.switchConfig id device.Mac])
      ++ device.CoverIDs.map (fun id => Step.coverStatus id device.Mac)) := by
  simp [List.mem_flatMap]

/-! ## Claim about the pipeline -/

/-- C7: one call of `fetchAndUpdateMetrics` runs the updates of the fixed plan
(device-info, status, config, per switch ID status then config, per cover ID
status, WiFi) in order; it returns nil exactly when every update succeeded, and
then all of them were invoked; otherwise it invoked the updates up to and
including the first failing one and no later one, and returns that update's
error wrapped; the WiFi update is invoked only if all updates before it
succeeded. -/
theorem fetchAndUpdateMetrics_pipeline (o : Oracle) (device : DeviceConfig) :
    fetchAndUpdateMetrics o device = runPlan o (pipelinePlan device) [] ∧
    ((fetchAndUpdateMetrics o device).1 = none ↔
      allSucceed o [] (pipelinePlan device) = true) ∧
    ((fetchAndUpdateMetrics o device).1 = none →
      (fetchAndUpdateMetrics o device).2 = pipelinePlan device) ∧
    (∀ err, (fetchAndUpdateMetrics o device).1 = some err →
      ∃ pre s post e, pipelinePlan device = pre ++ s :: post ∧
        allSucceed o [] pre = true ∧ o pre s = some e ∧
        (fetchAndUpdateMetrics o device).2 = pre ++ [s] ∧
        err = .wrap (stepMessage s) e ∧ err.unwrap = some e ∧
        (post ≠ [] → Step.wifi device.Mac ∉ (fetchAndUpdateMetrics o device).2)) := by
  rw [fetchAndUpdateMetrics_eq_runPlan]
  refine ⟨rfl, runPlan_none_iff o _ [], ?_, ?_⟩
  · intro h
    simpa using runPlan_none_steps o _ [] h
  · intro err h
    obtain ⟨pre, s, post, e, hp, ha, ho, hsteps, herr⟩ := runPlan_some o _ [] err h
    refine ⟨pre, s, post, e, hp, ha, by simpa using ho, by simpa using hsteps, herr,
      by rw [herr]; rfl, ?_⟩
    intro hpost hmem
    rw [hsteps] at hmem
    simp only [List.nil_append] at hmem
    obtain ⟨post1, last, hlast⟩ : ∃ post1 last, post = post1 ++ [last] :=
      ⟨post.dropLast, post.getLast hpost, (List.dropLast_append_getLast hpost).symm⟩
    have hplan : (pre ++ [s] ++ post1) ++ [last]
        = ([.deviceInfo, .status, .config]
            ++ device.SwitchIDs.flatMap
              (fun id => [Step.switchStatus id device.Mac, Step.switchConfig id device.Mac])
            ++ device.CoverIDs.map (fun id => Step.coverStatus id device.Mac))
          ++ [.wifi device.Mac] := by
      have : pipelinePlan device = (pre ++ [s] ++ post1) ++ [last] := by
        rw [hp, hlast]; simp
      rw [← this]; rfl
    have hfront := (List.append_inj' hplan rfl).1
    have : Step.wifi device.Mac ∈ pre ++ [s] ++ post1 := List.mem_append_left _ hmem
    rw [hfront] at this
    exact wifi_not_mem_front device device.Mac this

/-! ## Claims about registration -/

theorem lockStateAtFetches_held (held : Bool) (evs : List Event)
    (h : ∀ b ∈ lockStateAtFetches held evs, b = true)
    (pre : List Event) (e : Event) (post : List Event)
    (hsplit : evs = pre ++ e :: post) (hf : e.isFetch = true) :
    pre.foldl lockStep held = true := by
  induction pre generalizing held evs with
  | nil =>
    subst hsplit
    simp only [List.nil_append, lockStateAtFetches, hf, if_true, List.mem_cons] at h
    simpa using h held (Or.inl rfl)
  | cons a pre ih =>
    subst hsplit
    simp only [List.foldl_cons]
    apply ih (lockStep held a) (pre ++ e :: post) _ rfl
    intro b hb
    apply h
    simp only [List.cons_append, lockStateAtFetches]
    split
    · exact List.mem_cons_of_mem _ hb
    · exact hb

theorem RegisterDevice_events_new (env : RegisterEnv) (dm : DeviceManager)
    (device : DeviceConfig) (updateInterval : Int)
    (h : mapLookup dm.devices device.Host = none) :
    (RegisterDevice env dm device updateInterval).events =
      [.lock, .log "INFO" "Registering new device",
        .deviceInfoFetch device.Host, .statusFetch device.Host]
      ++ discoveryErrorLog (DiscoverComponents env.status).2.2
      ++ [.spawn dm.ctxCount device.Host updateInterval, .unlock] := by
  unfold RegisterDevice
  rw [h]
  rfl

/-- C10 (as amended): `RegisterDevice` holds the mutex from entry to return.
For a host that is not registered the two fetches are the device-info fetch
followed by the status fetch of discovery, both are performed while the mutex
is held, and the mutex is free once the call has returned. -/
theorem RegisterDevice_lock_scope (env : RegisterEnv) (dm : DeviceManager)
    (device : DeviceConfig) (updateInterval : Int)
    (h : mapLookup dm.devices device.Host = none) :
    (RegisterDevice env dm device updateInterval).events.head? = some .lock ∧
    (RegisterDevice env dm device updateInterval).events.getLast? = some .unlock ∧
    (RegisterDevice env dm device updateInterval).events.count .lock = 1 ∧
    (RegisterDevice env dm device updateInterval).events.count .unlock = 1 ∧
    mutexHeld (RegisterDevice env dm device updateInterval).events = false ∧
    (RegisterDevice env dm device updateInterval).events.filter Event.isFetch
      = [.deviceInfoFetch device.Host, .statusFetch device.Host] ∧
    lockStateAtFetches false (RegisterDevice env dm device updateInterval).events
      = [true, true] ∧
    (∀ pre e post, (RegisterDevice env dm device updateInterval).events = pre ++ e :: post →
      e.isFetch = true → mutexHeld pre = true) := by
  rw [RegisterDevice_events_new env dm device updateInterval h]
  have hstate : ∀ err : Option GoError, lockStateAtFetches false
      ([.lock, .log "INFO" "Registering new device",
        .deviceInfoFetch device.Host, .statusFetch device.Host]
      ++ discoveryErrorLog err
      ++ [.spawn dm.ctxCount device.Host updateInterval, .unlock]) = [true, true] := by
    intro err
    cases err <;> simp [discoveryErrorLog, lockStateAtFetches, lockStep, Event.isFetch]
  refine ⟨rfl, ?_, ?_, ?_, ?_, ?_, hstate _, ?_⟩
  · cases (DiscoverComponents env.status).2.2 <;> simp [discoveryErrorLog]
  · cases (DiscoverComponents env.status).2.2 <;> simp [discoveryErrorLog, List.count_cons]
  · cases (DiscoverComponents env.status).2.2 <;> simp [discoveryErrorLog, List.count_cons]
  · cases (DiscoverComponents env.status).2.2 <;> simp [discoveryErrorLog, mutexHeld, lockStep]
  · cases (DiscoverComponents env.status).2.2 <;> simp [discoveryErrorLog, Event.isFetch]
  · intro pre e post hsplit hf
    refine lockStateAtFetches_held false _ ?_ pre e post hsplit hf
    rw [hstate]
    simp

/-- C10 witness: a registration in the empty registry. -/
theorem RegisterDevice_lock_scope_witness :
    mapLookup NewDeviceManager.devices "shelly-1" = none ∧
    lockStateAtFetches false (RegisterDevice
        { deviceInfoErr := none, deviceType := "plus", deviceMac := "AA", deviceProfile := "sw",
          status := .ok ["switch:0"] }
        NewDeviceManager
        { Host := "shelly-1", Username := "", Password := "", DeviceType := "", Mac := "",
          Profile := "", SwitchIDs := [], CoverIDs := [] } 10).events
      = [true, true] :=
  ⟨by decide, (RegisterDevice_lock_scope _ NewDeviceManager _ 10 (by decide)).2.2.2.2.2.2.1⟩

/-- C10 counterexample: in a registration in the empty registry both fetches
are performed while the mutex is held, not while it is free. -/
theorem RegisterDevice_fetches_under_lock :
    (RegisterDevice
        { deviceInfoErr := none, deviceType := "plus", deviceMac := "AA", deviceProfile := "sw",
          status := .ok ["switch:0"] }
        NewDeviceManager
        { Host := "shelly-1", Username := "", Password := "", DeviceType := "", Mac := "",
          Profile := "", SwitchIDs := [], CoverIDs := [] } 10).events
      = [.lock, .log "INFO" "Registering new device", .deviceInfoFetch "shelly-1",
          .statusFetch "shelly-1", .spawn 0 "shelly-1" 10, .unlock] ∧
    mutexHeld [.lock, .log "INFO" "Registering new device"] = true ∧
    mutexHeld [.lock, .log "INFO" "Registering new device", .deviceInfoFetch "shelly-1"]
      = true ∧
    lockStateAtFetches false (RegisterDevice
        { deviceInfoErr := none, deviceType := "plus", deviceMac := "AA", deviceProfile := "sw",
          status := .ok ["switch:0"] }
        NewDeviceManager
        { Host := "shelly-1", Username := "", Password := "", DeviceType := "", Mac := "",
          Profile := "", SwitchIDs := [], CoverIDs := [] } 10).events
      ≠ [false, false] := by
  decide

end Shelly
